import Mathlib

/-!
Verification of the action-plan execution engine of `agent/cli.mjs` and its
bridge `web/server/agent-bridge.ts`.  Paths are modelled as `String`s whose
character lists are manipulated directly; JSON values coming back from the
planner are modelled by the inductive `JVal`; the filesystem is an association
list from absolute paths to file contents; shell command execution is an
oracle parameter `ex : String → Except String (String × String)` returning
either a failure or the pair (stdout, stderr).
-/

namespace Agent

/-! ### Character-list utilities (JS string primitives) -/

/-- Does the list start with the given pattern? (JS `String.prototype.startsWith`.) -/
def hasPre : List Char → List Char → Bool
  | [], _ => true
  | _ :: _, [] => false
  | a :: as, b :: bs => if a = b then hasPre as bs else false

/-- Does the list end with the given pattern? (JS `String.prototype.endsWith`.) -/
def hasSuf (pat l : List Char) : Bool :=
  hasPre pat.reverse l.reverse

/-- Drop the last `n` characters (JS `slice(0, -n)` on an already-shortened string). -/
def dropEnd (n : Nat) (l : List Char) : List Char :=
  l.take (l.length - n)

/-- Auxiliary splitter: returns the first segment and the remaining segments. -/
def splitChA (c : Char) : List Char → List Char × List (List Char)
  | [] => ([], [])
  | a :: rest =>
    if a = c then ([], (splitChA c rest).1 :: (splitChA c rest).2)
    else (a :: (splitChA c rest).1, (splitChA c rest).2)

/-- Split a character list on a separator (JS `String.prototype.split` with a
one-character separator).  Always returns a nonempty list of segments. -/
def splitCh (c : Char) (l : List Char) : List (List Char) :=
  (splitChA c l).1 :: (splitChA c l).2

/-- Join segments with a separator (JS `Array.prototype.join`). -/
def joinCh (c : Char) : List (List Char) → List Char
  | [] => []
  | s :: rest =>
    match rest with
    | [] => s
    | _ :: _ => s ++ c :: joinCh c rest

theorem hasPre_append (x r : List Char) : hasPre x (x ++ r) = true := by
  induction x with
  | nil => rfl
  | cons a as ih => simp [hasPre, ih]

theorem hasSuf_append (x r : List Char) : hasSuf x (r ++ x) = true := by
  simp [hasSuf, List.reverse_append, hasPre_append]

theorem dropEnd_append (n : Nat) (x y : List Char) (h : y.length = n) :
    dropEnd n (x ++ y) = x := by
  subst h
  simp [dropEnd, List.length_append]

theorem joinCh_cons (c : Char) (s b : List Char) (t : List (List Char)) :
    joinCh c (s :: b :: t) = s ++ c :: joinCh c (b :: t) := rfl

theorem joinCh_cons_cons (c : Char) (a : Char) (h : List Char) (t : List (List Char)) :
    joinCh c ((a :: h) :: t) = a :: joinCh c (h :: t) := by
  cases t <;> simp [joinCh]

theorem splitCh_eq (c : Char) (l : List Char) :
    splitCh c l = (splitChA c l).1 :: (splitChA c l).2 := rfl

theorem splitCh_cons_sep (c : Char) (rest : List Char) :
    splitCh c (c :: rest) = [] :: splitCh c rest := by
  simp [splitCh, splitChA]

theorem splitCh_cons_nonsep (c a : Char) (rest : List Char) (h : ¬ a = c) :
    splitCh c (a :: rest) = (a :: (splitChA c rest).1) :: (splitChA c rest).2 := by
  simp [splitCh, splitChA, if_neg h]

theorem joinCh_splitCh (c : Char) (l : List Char) : joinCh c (splitCh c l) = l := by
  induction l with
  | nil => rfl
  | cons a rest ih =>
    by_cases hac : a = c
    · subst hac
      rw [splitCh_cons_sep, splitCh_eq, joinCh_cons, ← splitCh_eq, ih]
      rfl
    · rw [splitCh_cons_nonsep c a rest hac, joinCh_cons_cons, ← splitCh_eq, ih]

theorem splitChA_no_sep (c : Char) (l : List Char) (h : c ∉ l) :
    splitChA c l = (l, []) := by
  induction l with
  | nil => rfl
  | cons a rest ih =>
    have ha : ¬ a = c := by
      intro hac; exact h (hac ▸ List.mem_cons_self a rest)
    have hr : c ∉ rest := fun hm => h (List.mem_cons_of_mem a hm)
    simp [splitChA, if_neg ha, ih hr]

theorem splitChA_sep_append (c : Char) (x y : List Char) (h : c ∉ x) :
    splitChA c (x ++ c :: y) = (x, splitCh c y) := by
  induction x with
  | nil => simp [splitChA, splitCh]
  | cons a rest ih =>
    have ha : ¬ a = c := by
      intro hac; exact h (hac ▸ List.mem_cons_self a rest)
    have hr : c ∉ rest := fun hm => h (List.mem_cons_of_mem a hm)
    simp [splitChA, if_neg ha, ih hr]

theorem splitCh_sep_append (c : Char) (x y : List Char) (h : c ∉ x) :
    splitCh c (x ++ c :: y) = x :: splitCh c y := by
  rw [splitCh_eq, splitChA_sep_append c x y h]

theorem splitCh_joinCh (c : Char) (segs : List (List Char)) (hne : segs ≠ [])
    (h : ∀ s ∈ segs, c ∉ s) : splitCh c (joinCh c segs) = segs := by
  induction segs with
  | nil => exact absurd rfl hne
  | cons s t ih =>
    cases t with
    | nil =>
      have hs : c ∉ s := h s (List.mem_cons_self s [])
      simp [joinCh, splitCh, splitChA_no_sep c s hs]
    | cons b t2 =>
      have hs : c ∉ s := h s (List.mem_cons_self s _)
      have hrest : ∀ u ∈ b :: t2, c ∉ u := fun u hu => h u (List.mem_cons_of_mem s hu)
      rw [joinCh_cons, splitCh_sep_append c s _ hs, ih (by simp) hrest]

theorem joinCh_append_single (c : Char) (segs : List (List Char)) (x : List Char)
    (hne : segs ≠ []) : joinCh c (segs ++ [x]) = joinCh c segs ++ c :: x := by
  induction segs with
  | nil => exact absurd rfl hne
  | cons s t ih =>
    cases t with
    | nil => simp [joinCh]
    | cons b t2 =>
      show joinCh c (s :: b :: (t2 ++ [x])) = _
      rw [joinCh_cons c s b (t2 ++ [x]), joinCh_cons c s b t2]
      have h1 : joinCh c (b :: (t2 ++ [x])) = joinCh c ((b :: t2) ++ [x]) := rfl
      rw [h1, ih (by simp)]
      simp

theorem mem_joinCh (c : Char) (segs : List (List Char)) (ch : Char)
    (h : ch ∈ joinCh c segs) : ch = c ∨ ∃ s ∈ segs, ch ∈ s := by
  induction segs with
  | nil => simp [joinCh] at h
  | cons s t ih =>
    cases t with
    | nil =>
      right; exact ⟨s, List.mem_cons_self s [], by simpa [joinCh] using h⟩
    | cons b t2 =>
      rw [joinCh_cons] at h
      rcases List.mem_append.mp h with hs | hrest
      · right; exact ⟨s, List.mem_cons_self s _, hs⟩
      · rcases List.mem_cons.mp hrest with hc | hj
        · left; exact hc
        · rcases ih hj with hc | ⟨u, hu, hch⟩
          · left; exact hc
          · right; exact ⟨u, List.mem_cons_of_mem s hu, hch⟩

/-! ### Node `path.resolve` on POSIX (the platform primitive `resolveInsideWeb` uses) -/

/-- One pass of POSIX path normalization over the segment list: empty and `.`
segments are dropped, `..` pops the previous segment (or is dropped at the root). -/
def normSegsCh : List (List Char) → List (List Char) → List (List Char)
  | acc, [] => acc.reverse
  | acc, s :: rest =>
    if s = [] ∨ s = ['.'] then normSegsCh acc rest
    else if s = ['.', '.'] then normSegsCh acc.tail rest
    else normSegsCh (s :: acc) rest

/-- Normalize an absolute POSIX path given as a character list. -/
def normAbs (l : List Char) : List Char :=
  '/' :: joinCh '/' (normSegsCh [] (splitCh '/' l))

/-- Node `path.resolve(root, p)` on POSIX, for an absolute `root`:
if `p` is absolute (starts with the separator) the root is ignored, otherwise
`p` is joined onto the root; the joined path is then normalized. -/
def pathResolve (root p : String) : String :=
  if hasPre ['/'] p.data then String.mk (normAbs p.data)
  else String.mk (normAbs (root.data ++ '/' :: p.data))

theorem normSegsCh_good (segs : List (List Char)) :
    ∀ acc : List (List Char),
      (∀ s ∈ segs, s ≠ [] ∧ s ≠ ['.'] ∧ s ≠ ['.', '.']) →
      normSegsCh acc segs = acc.reverse ++ segs := by
  induction segs with
  | nil => intro acc _; simp [normSegsCh]
  | cons s t ih =>
    intro acc h
    have hs := h s (List.mem_cons_self s t)
    have ht : ∀ u ∈ t, u ≠ [] ∧ u ≠ ['.'] ∧ u ≠ ['.', '.'] :=
      fun u hu => h u (List.mem_cons_of_mem s hu)
    rw [normSegsCh]
    rw [if_neg (by push_neg; exact ⟨hs.1, hs.2.1⟩), if_neg hs.2.2, ih (s :: acc) ht]
    simp

/-- A normalized absolute path is a fixed point of `normAbs`. -/
theorem normAbs_fixed (rest : List Char)
    (h : ∀ s ∈ splitCh '/' rest, s ≠ [] ∧ s ≠ ['.'] ∧ s ≠ ['.', '.']) :
    normAbs ('/' :: rest) = '/' :: rest := by
  have hsplit : splitCh '/' ('/' :: rest) = [] :: splitCh '/' rest := by
    simp [splitCh, splitChA]
  rw [normAbs, hsplit, normSegsCh, if_pos (Or.inl rfl), normSegsCh_good _ [] h]
  simp [joinCh_splitCh]

/-! ### Sandboxed Path Resolver (`resolveInsideWeb`, agent/cli.mjs) -/

/-- `resolveInsideWeb(relPath)`: resolve against the web root and refuse any
result that does not start with the root followed by the path separator.
The web root is passed explicitly (`WEB_ROOT` is process-wide in the source). -/
def resolveInsideWeb (webRoot relPath : String) : Except String String :=
  let abs := pathResolve webRoot relPath
  if hasPre (webRoot.data ++ ['/']) abs.data then Except.ok abs
  else Except.error ("Refusing to touch outside web/: " ++ relPath)

/-! ### Command Allowlist Gate (`runWhitelistedCommand`, agent/cli.mjs) -/

/-- The fixed command allowlist, in source order. -/
def whitelist : List String :=
  ["npm run dev", "npm run build", "npm run lint", "npm run typecheck",
   "next dev", "next build", "next start"]

/-- `runWhitelistedCommand(command)`: reject non-allowlisted commands before
any process is spawned; otherwise run the command through the execution
oracle `ex` and produce the transcript log entry. -/
def runWhitelistedCommand (ex : String → Except String (String × String))
    (command : String) : Except String String :=
  if whitelist.contains command then
    match ex command with
    | Except.error e => Except.error e
    | Except.ok (out, errS) =>
        Except.ok ("$ " ++ command ++ "\n" ++ out ++ "\n" ++ errS)
  else Except.error ("Command not allowed: " ++ command)

/-! ### Claims C1, C2, C9 -/

/-- Claim C1: for every path `p` whose normalized resolution against the root
`R` does not begin with `R` followed by the path separator, `resolveInsideWeb`
fails with the path-escape error instead of returning an absolute path. -/
theorem C1_resolver_rejects_escapes (R p : String)
    (h : hasPre (R.data ++ ['/']) (pathResolve R p).data = false) :
    resolveInsideWeb R p =
      Except.error ("Refusing to touch outside web/: " ++ p) := by
  simp [resolveInsideWeb, h]

/-- Witness for C1 at the concrete escapes named by the claim: a parent
traversal, a deep traversal, a sibling directory sharing the root's name as a
prefix, and a path resolving to exactly the root with no trailing separator. -/
theorem C1_witness :
    resolveInsideWeb "/a/web" "../secret" =
        Except.error "Refusing to touch outside web/: ../secret" ∧
    resolveInsideWeb "/a/web" "../../etc/passwd" =
        Except.error "Refusing to touch outside web/: ../../etc/passwd" ∧
    resolveInsideWeb "/a/web" "../web-evil" =
        Except.error "Refusing to touch outside web/: ../web-evil" ∧
    resolveInsideWeb "/a/web" "." =
        Except.error "Refusing to touch outside web/: ." :=
  ⟨C1_resolver_rejects_escapes "/a/web" "../secret" (by decide),
   C1_resolver_rejects_escapes "/a/web" "../../etc/passwd" (by decide),
   C1_resolver_rejects_escapes "/a/web" "../web-evil" (by decide),
   C1_resolver_rejects_escapes "/a/web" "." (by decide)⟩

/-- Claim C2: every command string that is not byte-identical to an allowlist
entry is rejected with the command-rejected error, and the outcome does not
depend on the execution oracle (no process is spawned). -/
theorem C2_command_gate_rejects (c : String)
    (h : whitelist.contains c = false) :
    (∀ ex, runWhitelistedCommand ex c =
        Except.error ("Command not allowed: " ++ c)) ∧
    (∀ ex1 ex2, runWhitelistedCommand ex1 c = runWhitelistedCommand ex2 c) := by
  have h2 : c ∉ whitelist := by simpa using h
  constructor
  · intro ex; simp [runWhitelistedCommand, h2]
  · intro ex1 ex2; simp [runWhitelistedCommand, h2]

/-- Witness for C2: an allowlisted command with trailing arguments, one with
shell metacharacters, and one with case variation are all rejected,
independent of the oracle. -/
theorem C2_witness :
    (∀ ex, runWhitelistedCommand ex "npm run dev --port 3000" =
        Except.error "Command not allowed: npm run dev --port 3000") ∧
    (∀ ex, runWhitelistedCommand ex "npm run dev; rm -rf /" =
        Except.error "Command not allowed: npm run dev; rm -rf /") ∧
    (∀ ex, runWhitelistedCommand ex "NPM RUN DEV" =
        Except.error "Command not allowed: NPM RUN DEV") :=
  ⟨(C2_command_gate_rejects "npm run dev --port 3000" (by decide)).1,
   (C2_command_gate_rejects "npm run dev; rm -rf /" (by decide)).1,
   (C2_command_gate_rejects "NPM RUN DEV" (by decide)).1⟩

/-- Claim C9: an absolute input path lying strictly inside the root is
accepted by `resolveInsideWeb` even though the data model declares action
paths project-relative: for a root `/rt` and a nonempty suffix `s` such that
root-slash-suffix is already in normal form, `path.resolve` ignores the root
base and the resolver returns the absolute path unchanged. -/
theorem C9_absolute_inside_accepted (rt : List Char) (s : String)
    (hs : s ≠ "")
    (hnf : ∀ l ∈ splitCh '/' (rt ++ '/' :: s.data),
      l ≠ [] ∧ l ≠ ['.'] ∧ l ≠ ['.', '.']) :
    resolveInsideWeb (String.mk ('/' :: rt))
        (String.mk ('/' :: rt) ++ "/" ++ s) =
      Except.ok (String.mk ('/' :: rt) ++ "/" ++ s) := by
  have hdata : (String.mk ('/' :: rt) ++ "/" ++ s).data
      = (('/' :: rt) ++ ['/']) ++ s.data := rfl
  have hdata2 : (String.mk ('/' :: rt) ++ "/" ++ s).data
      = '/' :: (rt ++ '/' :: s.data) := by rw [hdata]; simp
  have habs : pathResolve (String.mk ('/' :: rt)) (String.mk ('/' :: rt) ++ "/" ++ s)
      = String.mk ('/' :: rt) ++ "/" ++ s := by
    simp only [pathResolve, hdata2]
    rw [if_pos (by simp [hasPre]), normAbs_fixed _ hnf, ← hdata2]
  simp only [resolveInsideWeb, habs]
  rw [hdata2]
  have hpre : hasPre (('/' :: rt) ++ ['/']) ('/' :: (rt ++ '/' :: s.data)) = true := by
    rw [List.cons_append]
    simp only [hasPre, if_pos rfl]
    rw [show rt ++ '/' :: s.data = (rt ++ ['/']) ++ s.data from by simp]
    exact hasPre_append _ _
  rw [hpre]
  simp

/-- Witness for C9: with root `/a/web`, the absolute input `/a/web/x.txt`
is accepted and returned unchanged. -/
theorem C9_witness :
    resolveInsideWeb (String.mk ('/' :: ("a/web" : String).data))
        (String.mk ('/' :: ("a/web" : String).data) ++ "/" ++ "x.txt") =
      Except.ok (String.mk ('/' :: ("a/web" : String).data) ++ "/" ++ "x.txt") :=
  C9_absolute_inside_accepted ("a/web" : String).data "x.txt" (by decide) (by decide)

/-! ### Planner JSON values

The planner's decoded response is untyped JSON; `validatePlan` and the
executor in `runAgent` access its fields dynamically.  `JVal` models the
decoded values; a missing object field models JavaScript `undefined`. -/

inductive JVal where
  | str (s : String)
  | num (n : Int)
  | bool (b : Bool)
  | null
  | arr (xs : List JVal)
  | obj (fields : List (String × JVal))

/-- Field lookup on a JSON object; for duplicate keys the last entry wins,
as in `JSON.parse`.  Non-objects have no fields (`undefined`). -/
def lookupKey (k : String) : List (String × JVal) → Option JVal
  | [] => none
  | kv :: rest =>
    match lookupKey k rest with
    | some v => some v
    | none => if kv.1 = k then some kv.2 else none

/-- JS property access `a[k]`: `none` models `undefined`. -/
def JVal.get? : JVal → String → Option JVal
  | .obj fields, k => lookupKey k fields
  | _, _ => none

/-- Is this JSON value an array?  (JS `Array.isArray`.) -/
def JVal.isArr : JVal → Bool
  | .arr _ => true
  | _ => false

/-! ### Plan Validator (`validatePlan`, agent/cli.mjs) -/

/-- The four recognized action kinds, in source order. -/
def allowedTypes : List String :=
  ["create_file", "update_file", "delete_file", "run_command"]

/-- The per-element check of `validatePlan`: the declared kind must be an
allowed one, and `create_file`/`update_file` must carry string `contents`. -/
def validateAction (a : JVal) : Except String Unit :=
  match a.get? "type" with
  | some (.str s) =>
    if allowedTypes.contains s then
      if s = "create_file" ∨ s = "update_file" then
        match a.get? "contents" with
        | some (.str _) => Except.ok ()
        | _ => Except.error (s ++ " requires contents")
      else Except.ok ()
    else Except.error ("Disallowed action: " ++ s)
  | _ => Except.error "Disallowed action: undefined"

/-- The element loop of `validatePlan`, failing at the first bad element. -/
def validateActions : List JVal → Except String Unit
  | [] => Except.ok ()
  | a :: rest =>
    match validateAction a with
    | Except.error e => Except.error e
    | Except.ok _ => validateActions rest

/-- `validatePlan(actions)`: the input must be an array and every element
must pass `validateAction`; the validated list is returned unchanged. -/
def validatePlan (j : JVal) : Except String (List JVal) :=
  match j with
  | .arr as =>
    match validateActions as with
    | Except.error e => Except.error e
    | Except.ok _ => Except.ok as
  | _ => Except.error "actions must be an array"

/-! ### Action Executor (the loop inside `runAgent`, agent/cli.mjs) -/

/-- The filesystem inside the sandbox: absolute path to contents. -/
abbrev FS := List (String × String)

/-- `fs.writeFile` after `fs.mkdir(recursive)`: full-file replacement. -/
def fsWrite (fs : FS) (p c : String) : FS :=
  (p, c) :: List.filter (fun kv => kv.1 != p) fs

/-- `fs.rm(target, force)`: remove if present, no error when absent. -/
def fsRemove (fs : FS) (p : String) : FS :=
  List.filter (fun kv => kv.1 != p) fs

/-- One iteration of the executor loop in `runAgent`: dispatch on the action
kind, resolving paths through `resolveInsideWeb` and commands through
`runWhitelistedCommand`; produces the updated filesystem and the appended log
entry (if any).  Accessing a missing or non-string `path` raises the
`TypeError` that `path.resolve` would raise in JS. -/
def execAction (ex : String → Except String (String × String)) (R : String)
    (fs : FS) (a : JVal) : Except String (FS × Option String) :=
  match a.get? "type" with
  | some (.str t) =>
    if t = "create_file" ∨ t = "update_file" then
      match a.get? "path" with
      | some (.str p) =>
        match resolveInsideWeb R p with
        | Except.error e => Except.error e
        | Except.ok target =>
          match a.get? "contents" with
          | some (.str c) => Except.ok (fsWrite fs target c, some ("wrote " ++ p))
          | _ => Except.error "TypeError: contents is not a string"
      | _ => Except.error "TypeError: path is not a string"
    else if t = "delete_file" then
      match a.get? "path" with
      | some (.str p) =>
        match resolveInsideWeb R p with
        | Except.error e => Except.error e
        | Except.ok target => Except.ok (fsRemove fs target, some ("deleted " ++ p))
      | _ => Except.error "TypeError: path is not a string"
    else if t = "run_command" then
      match a.get? "command" with
      | some (.str c) =>
        match runWhitelistedCommand ex c with
        | Except.error e => Except.error e
        | Except.ok log => Except.ok (fs, some log)
      | _ => Except.error "Command not allowed: undefined"
    else Except.ok (fs, none)
  | _ => Except.ok (fs, none)

/-- The executor loop: strictly in order, stopping at the first failure.
The filesystem reached so far is returned even on failure (the JS code
mutates the real filesystem in place and performs no rollback). -/
def execPlan (ex : String → Except String (String × String)) (R : String) :
    List JVal → FS → FS × Except String (List String)
  | [], fs => (fs, Except.ok [])
  | a :: rest, fs =>
    match execAction ex R fs a with
    | Except.error e => (fs, Except.error e)
    | Except.ok (fs2, olog) =>
      match execPlan ex R rest fs2 with
      | (fs3, Except.error e) => (fs3, Except.error e)
      | (fs3, Except.ok logs) => (fs3, Except.ok (olog.toList ++ logs))

/-! ### Preview Route Inferencer (`inferPreviewPathFromActions`, agent/cli.mjs) -/

/-- The backslash-to-slash replacement `a.path.replace` applies per character. -/
def repl (c : Char) : Char := if c = '\\' then '/' else c

/-- Strip route-group segments, i.e. segments wrapped in parentheses. -/
def stripGroupSegs (segs : List (List Char)) : List (List Char) :=
  List.filter (fun s => !(hasPre ['('] s && hasSuf [')'] s)) segs

/-- The trailing-`index` collapse of the Pages-Router branch:
`sub.replace` of the anchored pattern slash-index. -/
def stripIdx (sub : List Char) : List Char :=
  if hasSuf ("/index" : String).data sub then dropEnd 6 sub else sub

/-- The per-path convention match of the inferencer: App-Router page files
`app/<segments>/page.tsx` (group segments stripped) and Pages-Router files
`pages/<segments>.tsx` (trailing `index` collapsed). -/
def routeOf (p0 : String) : Option String :=
  let p := p0.data.map repl
  if hasPre ("app/" : String).data p && hasSuf ("/page.tsx" : String).data p then
    let sub := dropEnd 9 (p.drop 4)
    some (String.mk ('/' :: joinCh '/' (stripGroupSegs (splitCh '/' sub))))
  else if hasPre ("pages/" : String).data p && hasSuf (".tsx" : String).data p then
    let sub := dropEnd 4 (p.drop 6)
    if sub = ("index" : String).data then some "/"
    else some (String.mk ('/' :: stripIdx sub))
  else none

/-- The reverse scan of the inferencer: the argument is the already reversed
action list.  A present but non-string `path` raises the `TypeError` that
`a.path.replace` would raise in JS. -/
def inferLoop : List JVal → Except String (Option String)
  | [] => Except.ok none
  | a :: rest =>
    match a.get? "path" with
    | none => inferLoop rest
    | some (.str p) =>
      match routeOf p with
      | some r => Except.ok (some r)
      | none => inferLoop rest
    | some _ => Except.error "TypeError: a.path.replace is not a function"

/-- The trailing fallback test: was one of the two canonical home-page files
touched?  (JS strict equality, so a missing or non-string path is `false`.) -/
def touchedHome (a : JVal) : Bool :=
  match a.get? "path" with
  | some (.str p) => p == "app/page.tsx" || p == "pages/index.tsx"
  | _ => false

/-- `inferPreviewPathFromActions(actions)`: scan the actions in reverse for
the most recent convention-matching path; fall back to the home page when one
of the two canonical home files was touched; otherwise `null` (`none`). -/
def inferPreviewPathFromActions (actions : List JVal) : Except String (Option String) :=
  match inferLoop actions.reverse with
  | Except.error e => Except.error e
  | Except.ok (some r) => Except.ok (some r)
  | Except.ok none =>
    if List.any actions touchedHome then Except.ok (some "/")
    else Except.ok none

/-! ### `runAgent` (agent/cli.mjs, public API) -/

/-- The execution result returned by `runAgent` on success. -/
structure ExecResult where
  assistant : String
  plan : List JVal
  logs : List String
  previewPath : String

/-- The core of `runAgent` after the planner response has been received and
decoded: validate the action list, execute it in order, infer the preview
path, and assemble the result.  `ex` is the command-execution oracle, `R`
the web root, `assistantMsg` and `rawActions` the two decoded response
fields, `fs` the filesystem at entry.  The (possibly mutated) filesystem is
returned alongside the outcome. -/
def runAgent (ex : String → Except String (String × String)) (R : String)
    (assistantMsg : String) (rawActions : JVal) (fs : FS) :
    FS × Except String ExecResult :=
  match validatePlan rawActions with
  | Except.error e => (fs, Except.error e)
  | Except.ok plan =>
    match execPlan ex R plan fs with
    | (fs2, Except.error e) => (fs2, Except.error e)
    | (fs2, Except.ok logs) =>
      match inferPreviewPathFromActions plan with
      | Except.error e => (fs2, Except.error e)
      | Except.ok o => (fs2, Except.ok ⟨assistantMsg, plan, logs, o.getD "/"⟩)

/-! ### Executor and validator lemmas -/

theorem validateActions_append_of_ok (pre l : List JVal)
    (h : validateActions pre = Except.ok ()) :
    validateActions (pre ++ l) = validateActions l := by
  induction pre with
  | nil => rfl
  | cons a t ih =>
    rw [List.cons_append]
    simp only [validateActions] at h ⊢
    rcases ha : validateAction a with e | u
    · rw [ha] at h; simp at h
    · rw [ha] at h; exact ih h

theorem execPlan_append_ok (ex : String → Except String (String × String))
    (R : String) (rest : List JVal) (pre : List JVal) :
    ∀ (fs fs1 fs2 : FS) (logs1 logs2 : List String),
      execPlan ex R pre fs = (fs1, Except.ok logs1) →
      execPlan ex R rest fs1 = (fs2, Except.ok logs2) →
      execPlan ex R (pre ++ rest) fs = (fs2, Except.ok (logs1 ++ logs2)) := by
  induction pre with
  | nil =>
    intro fs fs1 fs2 logs1 logs2 h1 h2
    simp only [execPlan, Prod.mk.injEq] at h1
    obtain ⟨rfl, h1b⟩ := h1
    obtain rfl : ([] : List String) = logs1 := by simpa using h1b
    simpa using h2
  | cons a t ih =>
    intro fs fs1 fs2 logs1 logs2 h1 h2
    rw [List.cons_append]
    simp only [execPlan] at h1 ⊢
    rcases ha : execAction ex R fs a with e | ⟨fsA, olog⟩
    · rw [ha] at h1; simp at h1
    · rw [ha] at h1
      dsimp only at h1
      rcases hp : execPlan ex R t fsA with ⟨fs3, r⟩
      cases r with
      | error e => rw [hp] at h1; simp at h1
      | ok logs =>
        rw [hp] at h1
        simp only [Prod.mk.injEq, Except.ok.injEq] at h1
        obtain ⟨rfl, rfl⟩ := h1
        dsimp only
        rw [ih fsA fs3 fs2 logs logs2 hp h2]
        simp

theorem execPlan_append_err (ex : String → Except String (String × String))
    (R : String) (rest : List JVal) (pre : List JVal) :
    ∀ (fs fs1 fs2 : FS) (logs1 : List String) (e : String),
      execPlan ex R pre fs = (fs1, Except.ok logs1) →
      execPlan ex R rest fs1 = (fs2, Except.error e) →
      execPlan ex R (pre ++ rest) fs = (fs2, Except.error e) := by
  induction pre with
  | nil =>
    intro fs fs1 fs2 logs1 e h1 h2
    simp only [execPlan, Prod.mk.injEq] at h1
    obtain ⟨rfl, _⟩ := h1
    simpa using h2
  | cons a t ih =>
    intro fs fs1 fs2 logs1 e h1 h2
    rw [List.cons_append]
    simp only [execPlan] at h1 ⊢
    rcases ha : execAction ex R fs a with e0 | ⟨fsA, olog⟩
    · rw [ha] at h1; simp at h1
    · rw [ha] at h1
      dsimp only at h1
      rcases hp : execPlan ex R t fsA with ⟨fs3, r⟩
      cases r with
      | error e0 => rw [hp] at h1; simp at h1
      | ok logs =>
        rw [hp] at h1
        simp only [Prod.mk.injEq, Except.ok.injEq] at h1
        obtain ⟨rfl, rfl⟩ := h1
        dsimp only
        rw [ih fsA fs3 fs2 logs e hp h2]

/-! ### Claims C3, C4, C8 -/

/-- Claim C3: if any action of a validated plan fails during execution,
`runAgent` aborts the remaining actions immediately (the conclusion holds for
every `post`), performs no rollback of already-applied actions (the returned
filesystem is the one reached after the successful prefix), and propagates
only the error: the accumulated logs are gone and no partial result is
returned. -/
theorem C3_failure_aborts (ex : String → Except String (String × String))
    (R am : String) (raw : JVal) (pre post : List JVal) (a : JVal)
    (fs fs1 : FS) (logs1 : List String) (e : String)
    (hv : validatePlan raw = Except.ok (pre ++ a :: post))
    (hp : execPlan ex R pre fs = (fs1, Except.ok logs1))
    (ha : execAction ex R fs1 a = Except.error e) :
    execPlan ex R (pre ++ a :: post) fs = (fs1, Except.error e) ∧
    runAgent ex R am raw fs = (fs1, Except.error e) := by
  have hstep : execPlan ex R (a :: post) fs1 = (fs1, Except.error e) := by
    simp [execPlan, ha]
  have hall : execPlan ex R (pre ++ a :: post) fs = (fs1, Except.error e) :=
    execPlan_append_err ex R (a :: post) pre fs fs1 fs1 logs1 e hp hstep
  exact ⟨hall, by simp [runAgent, hv, hall]⟩

/-- Witness for C3: a plan whose second action escapes the sandbox; the first
write is applied, the error is the path-escape error, and the third action is
never reached. -/
theorem C3_witness :
    execPlan (fun _ => Except.ok ("", "")) "/a/web"
        ([JVal.obj [("type", JVal.str "create_file"), ("path", JVal.str "a.txt"),
            ("contents", JVal.str "hi")]] ++
          JVal.obj [("type", JVal.str "delete_file"), ("path", JVal.str "../x")] ::
          [JVal.obj [("type", JVal.str "create_file"), ("path", JVal.str "b.txt"),
            ("contents", JVal.str "y")]]) [] =
      ([("/a/web/a.txt", "hi")], Except.error "Refusing to touch outside web/: ../x") ∧
    runAgent (fun _ => Except.ok ("", "")) "/a/web" "done"
        (JVal.arr
          [JVal.obj [("type", JVal.str "create_file"), ("path", JVal.str "a.txt"),
            ("contents", JVal.str "hi")],
           JVal.obj [("type", JVal.str "delete_file"), ("path", JVal.str "../x")],
           JVal.obj [("type", JVal.str "create_file"), ("path", JVal.str "b.txt"),
            ("contents", JVal.str "y")]]) [] =
      ([("/a/web/a.txt", "hi")], Except.error "Refusing to touch outside web/: ../x") :=
  C3_failure_aborts (fun _ => Except.ok ("", "")) "/a/web" "done"
    (JVal.arr
      [JVal.obj [("type", JVal.str "create_file"), ("path", JVal.str "a.txt"),
        ("contents", JVal.str "hi")],
       JVal.obj [("type", JVal.str "delete_file"), ("path", JVal.str "../x")],
       JVal.obj [("type", JVal.str "create_file"), ("path", JVal.str "b.txt"),
        ("contents", JVal.str "y")]])
    [JVal.obj [("type", JVal.str "create_file"), ("path", JVal.str "a.txt"),
      ("contents", JVal.str "hi")]]
    [JVal.obj [("type", JVal.str "create_file"), ("path", JVal.str "b.txt"),
      ("contents", JVal.str "y")]]
    (JVal.obj [("type", JVal.str "delete_file"), ("path", JVal.str "../x")])
    [] [("/a/web/a.txt", "hi")] ["wrote a.txt"]
    "Refusing to touch outside web/: ../x" rfl rfl rfl

/-- Is the optional JSON value a string?  (JS `typeof x === "string"`.) -/
def isStrVal : Option JVal → Bool
  | some (.str _) => true
  | _ => false

/-- Claim C4: `validatePlan` rejects non-arrays, rejects any plan containing
an element of unrecognized kind (such as `exec_shell`) even when every
earlier action is well-formed, rejects `create_file`/`update_file` elements
whose `contents` is absent or not a string, and runs to completion before any
filesystem mutation: when validation fails, `runAgent` returns the error with
the filesystem untouched. -/
theorem C4_validator_rejects :
    (∀ j : JVal, j.isArr = false →
      validatePlan j = Except.error "actions must be an array") ∧
    (∀ (pre post : List JVal) (a : JVal),
      validateActions pre = Except.ok () →
      a.get? "type" = some (JVal.str "exec_shell") →
      validatePlan (JVal.arr (pre ++ a :: post)) =
        Except.error "Disallowed action: exec_shell") ∧
    (∀ (pre post : List JVal) (a : JVal) (t : String),
      validateActions pre = Except.ok () →
      (t = "create_file" ∨ t = "update_file") →
      a.get? "type" = some (JVal.str t) →
      isStrVal (a.get? "contents") = false →
      validatePlan (JVal.arr (pre ++ a :: post)) =
        Except.error (t ++ " requires contents")) ∧
    (∀ ex R am raw fs e, validatePlan raw = Except.error e →
      runAgent ex R am raw fs = (fs, Except.error e)) := by
  refine ⟨?_, ?_, ?_, ?_⟩
  · intro j hj
    cases j <;> simp_all [JVal.isArr, validatePlan]
  · intro pre post a hpre htype
    simp only [validatePlan, validateActions_append_of_ok pre _ hpre,
      validateActions, validateAction, htype]
    simp [allowedTypes]
  · intro pre post a t hpre ht htype hc
    simp only [validatePlan, validateActions_append_of_ok pre _ hpre,
      validateActions, validateAction, htype]
    have hcontains : allowedTypes.contains t = true := by
      rcases ht with rfl | rfl <;> decide
    rw [if_pos (by simpa using hcontains), if_pos ht]
    rcases hcc : a.get? "contents" with _ | v
    · simp
    · cases v <;> simp_all [isStrVal]
  · intro ex R am raw fs e hv
    simp [runAgent, hv]

/-- Witness for C4: a non-array input, a plan with an `exec_shell` action
after a well-formed one, and an `update_file` without `contents` are all
rejected; a failing validation leaves the filesystem unchanged through
`runAgent`. -/
theorem C4_witness :
    validatePlan (JVal.obj []) = Except.error "actions must be an array" ∧
    validatePlan (JVal.arr
        [JVal.obj [("type", JVal.str "delete_file"), ("path", JVal.str "x")],
         JVal.obj [("type", JVal.str "exec_shell"), ("path", JVal.str "x")]]) =
      Except.error "Disallowed action: exec_shell" ∧
    validatePlan (JVal.arr
        [JVal.obj [("type", JVal.str "update_file"), ("path", JVal.str "x")]]) =
      Except.error "update_file requires contents" ∧
    runAgent (fun _ => Except.ok ("", "")) "/a/web" "m" (JVal.obj [])
        [("/a/web/old.txt", "keep")] =
      ([("/a/web/old.txt", "keep")], Except.error "actions must be an array") :=
  ⟨C4_validator_rejects.1 (JVal.obj []) rfl,
   C4_validator_rejects.2.1
     [JVal.obj [("type", JVal.str "delete_file"), ("path", JVal.str "x")]]
     [] (JVal.obj [("type", JVal.str "exec_shell"), ("path", JVal.str "x")]) rfl rfl,
   C4_validator_rejects.2.2.1 []
     [] (JVal.obj [("type", JVal.str "update_file"), ("path", JVal.str "x")])
     "update_file" rfl (Or.inr rfl) rfl rfl,
   C4_validator_rejects.2.2.2 (fun _ => Except.ok ("", "")) "/a/web" "m"
     (JVal.obj []) [("/a/web/old.txt", "keep")] "actions must be an array" rfl⟩

/-- Claim C8: `validatePlan` imposes no required-field check on `run_command`
actions: an action carrying only the kind passes validation (alone or after
any valid prefix), and at execution time the allowlist gate rejects the
missing command with the command-rejected error, after every earlier action
has already been applied. -/
theorem C8_missing_command_passes_validation :
    validateAction (JVal.obj [("type", JVal.str "run_command")]) = Except.ok () ∧
    (∀ pre : List JVal, validateActions pre = Except.ok () →
      validatePlan (JVal.arr (pre ++ [JVal.obj [("type", JVal.str "run_command")]])) =
        Except.ok (pre ++ [JVal.obj [("type", JVal.str "run_command")]])) ∧
    (∀ (ex : String → Except String (String × String)) (R : String)
        (pre : List JVal) (fs fs1 : FS) (logs1 : List String),
      execPlan ex R pre fs = (fs1, Except.ok logs1) →
      execPlan ex R (pre ++ [JVal.obj [("type", JVal.str "run_command")]]) fs =
        (fs1, Except.error "Command not allowed: undefined")) := by
  refine ⟨rfl, ?_, ?_⟩
  · intro pre hpre
    simp [validatePlan, validateActions_append_of_ok pre _ hpre, validateActions,
      validateAction, JVal.get?, lookupKey, allowedTypes]
  · intro ex R pre fs fs1 logs1 hp
    have hstep : execPlan ex R [JVal.obj [("type", JVal.str "run_command")]] fs1 =
        (fs1, Except.error "Command not allowed: undefined") := rfl
    exact execPlan_append_err ex R _ pre fs fs1 fs1 logs1 _ hp hstep

/-- Witness for C8: after one applied write, the command-less `run_command`
is validated but fails at the gate with the write already on disk. -/
theorem C8_witness :
    validatePlan (JVal.arr
        ([JVal.obj [("type", JVal.str "create_file"), ("path", JVal.str "a.txt"),
            ("contents", JVal.str "hi")]] ++
          [JVal.obj [("type", JVal.str "run_command")]])) =
      Except.ok
        ([JVal.obj [("type", JVal.str "create_file"), ("path", JVal.str "a.txt"),
            ("contents", JVal.str "hi")]] ++
          [JVal.obj [("type", JVal.str "run_command")]]) ∧
    execPlan (fun _ => Except.ok ("", "")) "/a/web"
        ([JVal.obj [("type", JVal.str "create_file"), ("path", JVal.str "a.txt"),
            ("contents", JVal.str "hi")]] ++
          [JVal.obj [("type", JVal.str "run_command")]]) [] =
      ([("/a/web/a.txt", "hi")], Except.error "Command not allowed: undefined") :=
  ⟨C8_missing_command_passes_validation.2.1
     [JVal.obj [("type", JVal.str "create_file"), ("path", JVal.str "a.txt"),
       ("contents", JVal.str "hi")]] rfl,
   C8_missing_command_passes_validation.2.2 (fun _ => Except.ok ("", "")) "/a/web"
     [JVal.obj [("type", JVal.str "create_file"), ("path", JVal.str "a.txt"),
       ("contents", JVal.str "hi")]]
     [] [("/a/web/a.txt", "hi")] ["wrote a.txt"] rfl⟩

/-! ### Inferencer lemmas -/

theorem map_repl_id (l : List Char) (h : ∀ ch ∈ l, ch ≠ '\\') :
    l.map repl = l := by
  induction l with
  | nil => rfl
  | cons a t ih =>
    have ha : a ≠ '\\' := h a (List.mem_cons_self a t)
    simp [repl, if_neg ha, ih (fun ch hch => h ch (List.mem_cons_of_mem a hch))]

/-- A `create_file` action as the planner emits it. -/
def mkCreate (p c : String) : JVal :=
  JVal.obj [("type", JVal.str "create_file"), ("path", JVal.str p),
    ("contents", JVal.str c)]

theorem mkCreate_path (p c : String) :
    (mkCreate p c).get? "path" = some (JVal.str p) := rfl

/-- An action appended at the end of the plan is scanned first; if it
matches a convention, its route is returned whatever the earlier actions. -/
theorem infer_append_last (acts : List JVal) (a : JVal) (p r : String)
    (h1 : a.get? "path" = some (JVal.str p)) (h2 : routeOf p = some r) :
    inferPreviewPathFromActions (acts ++ [a]) = Except.ok (some r) := by
  have hrev : (acts ++ [a]).reverse = a :: acts.reverse := by simp
  have hloop : inferLoop (a :: acts.reverse) = Except.ok (some r) := by
    simp only [inferLoop, h1, h2]
  simp only [inferPreviewPathFromActions]
  rw [hrev, hloop]

theorem routeOf_app (segs : List (List Char)) (hne : segs ≠ [])
    (hslash : ∀ s ∈ segs, '/' ∉ s)
    (hbs : ∀ s ∈ segs, ∀ ch ∈ s, ch ≠ '\\') :
    routeOf (String.mk (("app/" : String).data ++
        (joinCh '/' segs ++ ("/page.tsx" : String).data))) =
      some (String.mk ('/' :: joinCh '/' (stripGroupSegs segs))) := by
  have hbsL : ∀ ch ∈ ("app/" : String).data ++
      (joinCh '/' segs ++ ("/page.tsx" : String).data), ch ≠ '\\' := by
    intro ch hch
    rcases List.mem_append.mp hch with h1 | h2
    · intro he; subst he; revert h1; decide
    · rcases List.mem_append.mp h2 with h3 | h4
      · rcases mem_joinCh '/' segs ch h3 with he | ⟨s, hs, hchs⟩
        · subst he; decide
        · exact hbs s hs ch hchs
      · intro he; subst he; revert h4; decide
  have hsuf : hasSuf ("/page.tsx" : String).data
      (("app/" : String).data ++ (joinCh '/' segs ++ ("/page.tsx" : String).data)) = true := by
    rw [← List.append_assoc]
    exact hasSuf_append _ _
  simp only [routeOf, map_repl_id _ hbsL, hasPre_append, hsuf, Bool.and_self,
    if_pos]
  rw [List.drop_left' (show (("app/" : String).data).length = 4 from rfl),
    dropEnd_append 9 _ _ (show (("/page.tsx" : String).data).length = 9 from rfl),
    splitCh_joinCh '/' segs hne hslash]

theorem routeOf_pages_trailing_index (segs : List (List Char)) (hne : segs ≠ [])
    (hslash : ∀ s ∈ segs, '/' ∉ s)
    (hbs : ∀ s ∈ segs, ∀ ch ∈ s, ch ≠ '\\') :
    routeOf (String.mk (("pages/" : String).data ++
        (joinCh '/' (segs ++ [("index" : String).data]) ++ (".tsx" : String).data))) =
      some (String.mk ('/' :: joinCh '/' segs)) := by
  have hJ : joinCh '/' (segs ++ [("index" : String).data]) =
      joinCh '/' segs ++ '/' :: ("index" : String).data :=
    joinCh_append_single '/' segs _ hne
  have hbsL : ∀ ch ∈ ("pages/" : String).data ++
      (joinCh '/' (segs ++ [("index" : String).data]) ++ (".tsx" : String).data),
      ch ≠ '\\' := by
    intro ch hch
    rcases List.mem_append.mp hch with h1 | h2
    · intro he; subst he; revert h1; decide
    · rcases List.mem_append.mp h2 with h3 | h4
      · rw [hJ] at h3
        rcases List.mem_append.mp h3 with h5 | h6
        · rcases mem_joinCh '/' segs ch h5 with he | ⟨s, hs, hchs⟩
          · subst he; decide
          · exact hbs s hs ch hchs
        · intro he; subst he; revert h6; decide
      · intro he; subst he; revert h4; decide
  have happ : hasPre (("app/" : String)).data
      ((("pages/" : String)).data ++
        (joinCh '/' (segs ++ [("index" : String).data]) ++ (".tsx" : String).data)) = false := rfl
  have hpre2 : hasPre (("pages/" : String)).data
      ((("pages/" : String)).data ++
        (joinCh '/' (segs ++ [("index" : String).data]) ++ (".tsx" : String).data)) = true := rfl
  have hsuf2 : hasSuf ((".tsx" : String)).data
      ((("pages/" : String)).data ++
        (joinCh '/' (segs ++ [("index" : String).data]) ++ (".tsx" : String).data)) = true := by
    rw [← List.append_assoc]
    exact hasSuf_append _ _
  simp only [routeOf, map_repl_id _ hbsL, happ, Bool.false_and, Bool.and_self,
    if_neg, hpre2, hsuf2, Bool.true_and, if_pos, Bool.false_eq_true]
  rw [List.drop_left' (show (("pages/" : String).data).length = 6 from rfl),
    dropEnd_append 4 _ _ (show ((".tsx" : String).data).length = 4 from rfl), hJ]
  have hlen : ¬ (joinCh '/' segs ++ '/' :: ("index" : String).data =
      ("index" : String).data) := by
    intro hcontra
    have := congrArg List.length hcontra
    simp [List.length_append] at this
  rw [if_neg hlen]
  have hsufidx : hasSuf ("/index" : String).data
      (joinCh '/' segs ++ '/' :: ("index" : String).data) = true := by
    have : joinCh '/' segs ++ '/' :: ("index" : String).data =
        joinCh '/' segs ++ ("/index" : String).data := rfl
    rw [this]
    exact hasSuf_append _ _
  rw [stripIdx, if_pos hsufidx,
    dropEnd_append 6 _ _ (show ('/' :: ("index" : String).data).length = 6 from rfl)]
  simp

theorem routeOf_pages_no_index (segs : List (List Char)) (hne : segs ≠ [])
    (hslash : ∀ s ∈ segs, '/' ∉ s)
    (hbs : ∀ s ∈ segs, ∀ ch ∈ s, ch ≠ '\\')
    (hnidx1 : joinCh '/' segs ≠ ("index" : String).data)
    (hnidx2 : hasSuf ("/index" : String).data (joinCh '/' segs) = false) :
    routeOf (String.mk (("pages/" : String).data ++
        (joinCh '/' segs ++ (".tsx" : String).data))) =
      some (String.mk ('/' :: joinCh '/' segs)) := by
  have hbsL : ∀ ch ∈ ("pages/" : String).data ++
      (joinCh '/' segs ++ (".tsx" : String).data), ch ≠ '\\' := by
    intro ch hch
    rcases List.mem_append.mp hch with h1 | h2
    · intro he; subst he; revert h1; decide
    · rcases List.mem_append.mp h2 with h3 | h4
      · rcases mem_joinCh '/' segs ch h3 with he | ⟨s, hs, hchs⟩
        · subst he; decide
        · exact hbs s hs ch hchs
      · intro he; subst he; revert h4; decide
  have happ : hasPre (("app/" : String)).data
      ((("pages/" : String)).data ++
        (joinCh '/' segs ++ (".tsx" : String).data)) = false := rfl
  have hpre2 : hasPre (("pages/" : String)).data
      ((("pages/" : String)).data ++
        (joinCh '/' segs ++ (".tsx" : String).data)) = true := rfl
  have hsuf2 : hasSuf ((".tsx" : String)).data
      ((("pages/" : String)).data ++
        (joinCh '/' segs ++ (".tsx" : String).data)) = true := by
    rw [← List.append_assoc]
    exact hasSuf_append _ _
  simp only [routeOf, map_repl_id _ hbsL, happ, Bool.false_and, Bool.and_self,
    if_neg, hpre2, hsuf2, Bool.true_and, if_pos, Bool.false_eq_true]
  rw [List.drop_left' (show (("pages/" : String).data).length = 6 from rfl),
    dropEnd_append 4 _ _ (show ((".tsx" : String).data).length = 4 from rfl)]
  rw [if_neg hnidx1, stripIdx]
  simp [hnidx2]

/-! ### Claim C5 -/

/-- Claim C5: when the most recent path-bearing convention-matching action of
the plan is a page file, the inferred route follows the two conventions:
`app/<segments>/page.tsx` maps to slash-joined segments with every
parenthesized grouping segment stripped (`app/page.tsx` maps to the root
route), and `pages/<segments>.tsx` maps to the segments with a trailing
`index` segment collapsed to the parent path (`pages/index.tsx` maps to the
root route). -/
theorem C5_route_conventions :
    (∀ (acts : List JVal) (c : String) (segs : List (List Char)),
      segs ≠ [] → (∀ s ∈ segs, '/' ∉ s) → (∀ s ∈ segs, ∀ ch ∈ s, ch ≠ '\\') →
      inferPreviewPathFromActions (acts ++
        [mkCreate (String.mk (("app/" : String).data ++
          (joinCh '/' segs ++ ("/page.tsx" : String).data))) c]) =
        Except.ok (some (String.mk ('/' :: joinCh '/' (stripGroupSegs segs))))) ∧
    (∀ (acts : List JVal) (c : String),
      inferPreviewPathFromActions (acts ++ [mkCreate "app/page.tsx" c]) =
        Except.ok (some "/")) ∧
    (∀ (acts : List JVal) (c : String) (segs : List (List Char)),
      segs ≠ [] → (∀ s ∈ segs, '/' ∉ s) → (∀ s ∈ segs, ∀ ch ∈ s, ch ≠ '\\') →
      inferPreviewPathFromActions (acts ++
        [mkCreate (String.mk (("pages/" : String).data ++
          (joinCh '/' (segs ++ [("index" : String).data]) ++ (".tsx" : String).data))) c]) =
        Except.ok (some (String.mk ('/' :: joinCh '/' segs)))) ∧
    (∀ (acts : List JVal) (c : String),
      inferPreviewPathFromActions (acts ++ [mkCreate "pages/index.tsx" c]) =
        Except.ok (some "/")) ∧
    (∀ (acts : List JVal) (c : String) (segs : List (List Char)),
      segs ≠ [] → (∀ s ∈ segs, '/' ∉ s) → (∀ s ∈ segs, ∀ ch ∈ s, ch ≠ '\\') →
      joinCh '/' segs ≠ ("index" : String).data →
      hasSuf ("/index" : String).data (joinCh '/' segs) = false →
      inferPreviewPathFromActions (acts ++
        [mkCreate (String.mk (("pages/" : String).data ++
          (joinCh '/' segs ++ (".tsx" : String).data))) c]) =
        Except.ok (some (String.mk ('/' :: joinCh '/' segs)))) := by
  refine ⟨?_, ?_, ?_, ?_, ?_⟩
  · intro acts c segs hne hslash hbs
    exact infer_append_last acts _ _ _ (mkCreate_path _ c)
      (routeOf_app segs hne hslash hbs)
  · intro acts c
    exact infer_append_last acts _ _ _ (mkCreate_path _ c) rfl
  · intro acts c segs hne hslash hbs
    exact infer_append_last acts _ _ _ (mkCreate_path _ c)
      (routeOf_pages_trailing_index segs hne hslash hbs)
  · intro acts c
    exact infer_append_last acts _ _ _ (mkCreate_path _ c) rfl
  · intro acts c segs hne hslash hbs hn1 hn2
    exact infer_append_last acts _ _ _ (mkCreate_path _ c)
      (routeOf_pages_no_index segs hne hslash hbs hn1 hn2)

/-- Witness for C5 at the claim's examples: `app/(marketing)/about/page.tsx`
yields `/about`, `app/page.tsx` yields `/`, `pages/blog/index.tsx` yields
`/blog`, `pages/index.tsx` yields `/`, and `pages/about.tsx` yields
`/about`. -/
theorem C5_witness :
    inferPreviewPathFromActions
        [mkCreate (String.mk (("app/" : String).data ++
          (joinCh '/' [("(marketing)" : String).data, ("about" : String).data] ++
            ("/page.tsx" : String).data))) "x"] =
      Except.ok (some "/about") ∧
    inferPreviewPathFromActions [mkCreate "app/page.tsx" "x"] =
      Except.ok (some "/") ∧
    inferPreviewPathFromActions
        [mkCreate (String.mk (("pages/" : String).data ++
          (joinCh '/' ([("blog" : String).data] ++ [("index" : String).data]) ++
            (".tsx" : String).data))) "x"] =
      Except.ok (some "/blog") ∧
    inferPreviewPathFromActions [mkCreate "pages/index.tsx" "x"] =
      Except.ok (some "/") ∧
    inferPreviewPathFromActions
        [mkCreate (String.mk (("pages/" : String).data ++
          (joinCh '/' [("about" : String).data] ++ (".tsx" : String).data))) "x"] =
      Except.ok (some "/about") :=
  ⟨C5_route_conventions.1 [] "x"
     [("(marketing)" : String).data, ("about" : String).data]
     (by decide) (by decide) (by decide),
   C5_route_conventions.2.1 [] "x",
   C5_route_conventions.2.2.1 [] "x" [("blog" : String).data]
     (by decide) (by decide) (by decide),
   C5_route_conventions.2.2.2.1 [] "x",
   C5_route_conventions.2.2.2.2 [] "x" [("about" : String).data]
     (by decide) (by decide) (by decide) (by decide) (by decide)⟩

/-! ### Claims C6 and C10 -/

/-- Does the action fail to match a route convention (without raising)?
True when the action has no `path` field or a string path with no route. -/
def actNoMatchB (b : JVal) : Bool :=
  match b.get? "path" with
  | none => true
  | some (.str q) => (routeOf q).isNone
  | some _ => false

/-- Does the action carry a string path that matches a route convention? -/
def matchesB (b : JVal) : Bool :=
  match b.get? "path" with
  | some (.str q) => (routeOf q).isSome
  | _ => false

/-- Is the `path` field absent or a string (so the scan cannot raise)? -/
def pathOkB (b : JVal) : Bool :=
  match b.get? "path" with
  | some (.str _) => true
  | none => true
  | some _ => false

/-- The same function with the touched-home-page fallback branch removed. -/
def inferNoFallback (actions : List JVal) : Except String (Option String) :=
  inferLoop actions.reverse

theorem inferLoop_skip (l m : List JVal) (h : ∀ b ∈ l, actNoMatchB b = true) :
    inferLoop (l ++ m) = inferLoop m := by
  induction l with
  | nil => rfl
  | cons b t ih =>
    have hb := h b (List.mem_cons_self b t)
    have ht : ∀ x ∈ t, actNoMatchB x = true :=
      fun x hx => h x (List.mem_cons_of_mem b hx)
    rw [List.cons_append]
    simp only [inferLoop]
    rcases hpath : b.get? "path" with _ | v
    · exact ih ht
    · cases v with
      | str q =>
        simp only [actNoMatchB, hpath] at hb
        dsimp only
        rcases hr : routeOf q with _ | r
        · exact ih ht
        · rw [hr] at hb; simp at hb
      | num n => simp [actNoMatchB, hpath] at hb
      | bool b2 => simp [actNoMatchB, hpath] at hb
      | null => simp [actNoMatchB, hpath] at hb
      | arr xs => simp [actNoMatchB, hpath] at hb
      | obj fields => simp [actNoMatchB, hpath] at hb

theorem inferLoop_null_no_match (l : List JVal)
    (h : inferLoop l = Except.ok none) : ∀ b ∈ l, matchesB b = false := by
  induction l with
  | nil => intro b hb; simp at hb
  | cons a t ih =>
    intro b hb
    simp only [inferLoop] at h
    rcases hp : a.get? "path" with _ | v
    · rw [hp] at h
      rcases List.mem_cons.mp hb with rfl | hbt
      · simp [matchesB, hp]
      · exact ih h b hbt
    · cases v with
      | str q =>
        rw [hp] at h
        dsimp only at h
        rcases hr : routeOf q with _ | r
        · rw [hr] at h
          rcases List.mem_cons.mp hb with rfl | hbt
          · simp [matchesB, hp, hr]
          · exact ih h b hbt
        · rw [hr] at h; simp at h
      | num n => rw [hp] at h; simp at h
      | bool b2 => rw [hp] at h; simp at h
      | null => rw [hp] at h; simp at h
      | arr xs => rw [hp] at h; simp at h
      | obj fields => rw [hp] at h; simp at h

theorem touchedHome_matches (b : JVal) (h : touchedHome b = true) :
    matchesB b = true := by
  rcases hp : b.get? "path" with _ | v
  · simp [touchedHome, hp] at h
  · cases v with
    | str q =>
      simp only [touchedHome, hp, Bool.or_eq_true, beq_iff_eq] at h
      simp only [matchesB, hp]
      rcases h with rfl | rfl <;> rfl
    | num n => simp [touchedHome, hp] at h
    | bool b2 => simp [touchedHome, hp] at h
    | null => simp [touchedHome, hp] at h
    | arr xs => simp [touchedHome, hp] at h
    | obj fields => simp [touchedHome, hp] at h

theorem noMatch_of_ok_of_not_matches (b : JVal) (h1 : pathOkB b = true)
    (h2 : matchesB b = false) : actNoMatchB b = true := by
  rcases hp : b.get? "path" with _ | v
  · simp [actNoMatchB, hp]
  · cases v with
    | str q =>
      simp only [matchesB, hp] at h2
      rcases hr : routeOf q with _ | r
      · simp [actNoMatchB, hp, hr]
      · rw [hr] at h2; simp at h2
    | num n => simp [pathOkB, hp] at h1
    | bool b2 => simp [pathOkB, hp] at h1
    | null => simp [pathOkB, hp] at h1
    | arr xs => simp [pathOkB, hp] at h1
    | obj fields => simp [pathOkB, hp] at h1

theorem inferLoop_no_match_none (l : List JVal)
    (h : ∀ b ∈ l, actNoMatchB b = true) : inferLoop l = Except.ok none := by
  have h2 := inferLoop_skip l [] h
  rw [List.append_nil] at h2
  rw [h2]; rfl

theorem any_touchedHome_false (acts : List JVal)
    (h : inferLoop acts.reverse = Except.ok none) :
    List.any acts touchedHome = false := by
  have hnm := inferLoop_null_no_match _ h
  cases hany : List.any acts touchedHome with
  | false => rfl
  | true =>
    exfalso
    obtain ⟨b, hb, htb⟩ := List.any_eq_true.mp hany
    have hmt := touchedHome_matches b htb
    have hmf := hnm b (List.mem_reverse.mpr hb)
    rw [hmt] at hmf
    exact absurd hmf (by simp)

/-- Claim C6: the inferencer scans in reverse order and returns the route of
the most recent convention-matching path-bearing action whatever precedes it;
when no action matches (and neither home-page file was touched) it returns
`none`; `runAgent` then substitutes the root route as `previewPath`. -/
theorem C6_reverse_scan_and_fallback :
    (∀ (pre post : List JVal) (a : JVal) (p r : String),
      a.get? "path" = some (JVal.str p) → routeOf p = some r →
      (∀ b ∈ post, actNoMatchB b = true) →
      inferPreviewPathFromActions (pre ++ a :: post) = Except.ok (some r)) ∧
    (∀ acts : List JVal,
      (∀ b ∈ acts, actNoMatchB b = true ∧ touchedHome b = false) →
      inferPreviewPathFromActions acts = Except.ok none) ∧
    (∀ (ex : String → Except String (String × String)) (R am : String)
        (raw : JVal) (plan : List JVal) (fs fs2 : FS) (logs : List String),
      validatePlan raw = Except.ok plan →
      execPlan ex R plan fs = (fs2, Except.ok logs) →
      inferPreviewPathFromActions plan = Except.ok none →
      runAgent ex R am raw fs = (fs2, Except.ok ⟨am, plan, logs, "/"⟩)) := by
  refine ⟨?_, ?_, ?_⟩
  · intro pre post a p r h1 h2 h3
    have hrev : (pre ++ a :: post).reverse = post.reverse ++ (a :: pre.reverse) := by
      simp
    have hskip : inferLoop (post.reverse ++ (a :: pre.reverse)) =
        inferLoop (a :: pre.reverse) :=
      inferLoop_skip post.reverse _ (fun b hb => h3 b (List.mem_reverse.mp hb))
    have hloop : inferLoop (a :: pre.reverse) = Except.ok (some r) := by
      simp only [inferLoop, h1, h2]
    simp only [inferPreviewPathFromActions]
    rw [hrev, hskip, hloop]
  · intro acts h
    have hl : inferLoop acts.reverse = Except.ok none :=
      inferLoop_no_match_none acts.reverse
        (fun b hb => (h b (List.mem_reverse.mp hb)).1)
    have hany : List.any acts touchedHome = false := any_touchedHome_false acts hl
    simp only [inferPreviewPathFromActions]
    rw [hl, hany]
    simp
  · intro ex R am raw plan fs fs2 logs hv hexec hinf
    simp only [runAgent, hv, hexec, hinf]
    rfl

/-- Witness for C6: the most recent matching action wins over an earlier
matching one and later non-matching ones; an all-non-matching plan yields
`none` and `runAgent` then reports the root route. -/
theorem C6_witness :
    inferPreviewPathFromActions
        ([mkCreate "app/old/page.tsx" "x"] ++
          mkCreate "app/about/page.tsx" "x" ::
            [JVal.obj [("type", JVal.str "delete_file"), ("path", JVal.str "notes.txt")]]) =
      Except.ok (some "/about") ∧
    inferPreviewPathFromActions
        [JVal.obj [("type", JVal.str "delete_file"), ("path", JVal.str "notes.txt")],
         JVal.obj [("type", JVal.str "run_command"), ("command", JVal.str "npm run build")]] =
      Except.ok none ∧
    runAgent (fun _ => Except.ok ("", "")) "/a/web" "m" (JVal.arr []) [] =
      ([], Except.ok ⟨"m", [], [], "/"⟩) :=
  ⟨C6_reverse_scan_and_fallback.1 [mkCreate "app/old/page.tsx" "x"]
     [JVal.obj [("type", JVal.str "delete_file"), ("path", JVal.str "notes.txt")]]
     (mkCreate "app/about/page.tsx" "x") "app/about/page.tsx" "/about"
     rfl rfl (by decide),
   C6_reverse_scan_and_fallback.2.1
     [JVal.obj [("type", JVal.str "delete_file"), ("path", JVal.str "notes.txt")],
      JVal.obj [("type", JVal.str "run_command"), ("command", JVal.str "npm run build")]]
     (by decide),
   C6_reverse_scan_and_fallback.2.2 (fun _ => Except.ok ("", "")) "/a/web" "m"
     (JVal.arr []) [] [] [] [] rfl rfl rfl⟩

/-- Claim C10: the touched-home-page fallback branch is unreachable: the
inferencer is extensionally equal to the same function with the fallback
removed, and (for plans whose paths cannot raise) it returns `none` exactly
when no action's path matches either route convention. -/
theorem C10_fallback_unreachable :
    (∀ acts : List JVal,
      inferPreviewPathFromActions acts = inferNoFallback acts) ∧
    (∀ acts : List JVal, (∀ b ∈ acts, pathOkB b = true) →
      (inferPreviewPathFromActions acts = Except.ok none ↔
        ∀ b ∈ acts, matchesB b = false)) := by
  constructor
  · intro acts
    simp only [inferPreviewPathFromActions, inferNoFallback]
    rcases hl : inferLoop acts.reverse with e | o
    · rfl
    · cases o with
      | some r => rfl
      | none =>
        rw [any_touchedHome_false acts hl]
        simp
  · intro acts hok
    constructor
    · intro h
      have hl : inferLoop acts.reverse = Except.ok none := by
        rcases hl2 : inferLoop acts.reverse with e | o
        · simp only [inferPreviewPathFromActions, hl2] at h
          exact h
        · cases o with
          | some r =>
            simp only [inferPreviewPathFromActions, hl2] at h
            exact h
          | none => rfl
      intro b hb
      exact inferLoop_null_no_match _ hl b (List.mem_reverse.mpr hb)
    · intro h
      have hl : inferLoop acts.reverse = Except.ok none :=
        inferLoop_no_match_none acts.reverse (fun b hb =>
          noMatch_of_ok_of_not_matches b (hok b (List.mem_reverse.mp hb))
            (h b (List.mem_reverse.mp hb)))
      simp only [inferPreviewPathFromActions]
      rw [hl, any_touchedHome_false acts hl]
      simp

/-- Witness for C10: the extensional equality and the `none` charactisation
at a concrete one-action plan. -/
theorem C10_witness :
    (inferPreviewPathFromActions
        [JVal.obj [("type", JVal.str "delete_file"), ("path", JVal.str "notes.txt")]] =
      inferNoFallback
        [JVal.obj [("type", JVal.str "delete_file"), ("path", JVal.str "notes.txt")]]) ∧
    (inferPreviewPathFromActions
        [JVal.obj [("type", JVal.str "delete_file"), ("path", JVal.str "notes.txt")]] =
        Except.ok none ↔
      ∀ b ∈ [JVal.obj [("type", JVal.str "delete_file"), ("path", JVal.str "notes.txt")]],
        matchesB b = false) :=
  ⟨C10_fallback_unreachable.1
     [JVal.obj [("type", JVal.str "delete_file"), ("path", JVal.str "notes.txt")]],
   C10_fallback_unreachable.2
     [JVal.obj [("type", JVal.str "delete_file"), ("path", JVal.str "notes.txt")]]
     (by decide)⟩

/-! ### CLI surface (agent/cli.mjs entry) and `runAgentViaCLI`
(web/server/run-agent-via-cli.ts) -/

/-- What the CLI entry writes to standard output on success: the three
`console.log` calls (each joins its two arguments with a space and appends a
newline).  `planJson` stands for `JSON.stringify(plan, null, 2)`. -/
def cliStdout (am planJson pv : String) : String :=
  "\nAssistant:\n " ++ am ++ "\n" ++ "\nPlan:\n " ++ planJson ++ "\n" ++
    "\nPreview:\n " ++ pv ++ "\n"

/-- The CLI process outcome: exit code and standard output.  Success prints
the three blocks and exits 0 (the Node default); any failure exits 1. -/
def cliRun (res : Except String ExecResult) (planJson : String) : Nat × String :=
  match res with
  | Except.ok r => (0, cliStdout r.assistant planJson r.previewPath)
  | Except.error _ => (1, "")

/-- The sentinel-line scan of `runAgentViaCLI`: split the captured stdout on
newlines and find the first line starting with the fixed token. -/
def findAgentJsonLine (out : String) : Option (List Char) :=
  List.find? (fun l => hasPre ("AGENT_JSON:" : String).data l)
    (splitCh '\n' out.data)

/-- `runAgentViaCLI`'s result handling: nonzero exit rejects with stderr;
exit 0 without a sentinel line rejects with the fixed message; otherwise the
payload after the sentinel is returned (its JSON decoding is not modelled). -/
def runAgentViaCLI (exitCode : Nat) (out errS : String) : Except String String :=
  if exitCode ≠ 0 then Except.error errS
  else
    match findAgentJsonLine out with
    | none => Except.error ("Agent did not produce AGENT_JSON output.\n" ++ out)
    | some line => Except.ok (String.mk (line.drop 11))

theorem hasPre_agent_space (l : List Char) :
    hasPre ['A', 'G', 'E', 'N', 'T', '_', 'J', 'S', 'O', 'N', ':'] (' ' :: l) = false := rfl

/-- Claim C7 (the divergent part): the CLI never emits a line starting with
the sentinel `AGENT_JSON:` — for single-line assistant message, plan JSON and
preview path, the bridge's scan finds nothing and `runAgentViaCLI` rejects
every successful run; the exit codes are 0 on success and 1 on failure. -/
theorem C7_cli_emits_no_sentinel (am pj pv : String)
    (h1 : '\n' ∉ am.data) (h2 : '\n' ∉ pj.data) (h3 : '\n' ∉ pv.data) :
    findAgentJsonLine (cliStdout am pj pv) = none ∧
    runAgentViaCLI 0 (cliStdout am pj pv) "" =
      Except.error ("Agent did not produce AGENT_JSON output.\n" ++ cliStdout am pj pv) ∧
    (∀ (r : ExecResult) (s : String), (cliRun (Except.ok r) s).1 = 0) ∧
    (∀ (e s : String), (cliRun (Except.error e) s).1 = 1) := by
  have hdata : (cliStdout am pj pv).data =
      joinCh '\n' [[], ("Assistant:" : String).data, ' ' :: am.data, [],
        ("Plan:" : String).data, ' ' :: pj.data, [],
        ("Preview:" : String).data, ' ' :: pv.data, []] := by
    have eA : ("\nAssistant:\n " : String).data =
        '\n' :: (("Assistant:" : String).data ++ ['\n', ' ']) := rfl
    have eP : ("\nPlan:\n " : String).data =
        '\n' :: (("Plan:" : String).data ++ ['\n', ' ']) := rfl
    have eV : ("\nPreview:\n " : String).data =
        '\n' :: (("Preview:" : String).data ++ ['\n', ' ']) := rfl
    simp [cliStdout, String.data_append, eA, eP, eV, joinCh]
  have hlines : splitCh '\n' (cliStdout am pj pv).data =
      [[], ("Assistant:" : String).data, ' ' :: am.data, [],
        ("Plan:" : String).data, ' ' :: pj.data, [],
        ("Preview:" : String).data, ' ' :: pv.data, []] := by
    rw [hdata]
    refine splitCh_joinCh '\n' _ (by simp) ?_
    intro s hs
    simp only [List.mem_cons, List.not_mem_nil, or_false] at hs
    rcases hs with rfl | rfl | rfl | rfl | rfl | rfl | rfl | rfl | rfl | rfl
    · simp
    · decide
    · intro hm
      rcases List.mem_cons.mp hm with he | hm2
      · exact absurd he (by decide)
      · exact h1 hm2
    · simp
    · decide
    · intro hm
      rcases List.mem_cons.mp hm with he | hm2
      · exact absurd he (by decide)
      · exact h2 hm2
    · simp
    · decide
    · intro hm
      rcases List.mem_cons.mp hm with he | hm2
      · exact absurd he (by decide)
      · exact h3 hm2
    · simp
  have hfind : findAgentJsonLine (cliStdout am pj pv) = none := by
    simp only [findAgentJsonLine]
    rw [hlines]
    refine List.find?_eq_none.mpr ?_
    intro x hx
    simp only [List.mem_cons, List.not_mem_nil, or_false] at hx
    rcases hx with rfl | rfl | rfl | rfl | rfl | rfl | rfl | rfl | rfl | rfl
    · decide
    · decide
    · simp [hasPre_agent_space]
    · decide
    · decide
    · simp [hasPre_agent_space]
    · decide
    · decide
    · simp [hasPre_agent_space]
    · decide
  refine ⟨hfind, ?_, fun r s => rfl, fun e s => rfl⟩
  simp [runAgentViaCLI, hfind]

/-- Witness for C7 at a concrete successful run. -/
theorem C7_witness :
    findAgentJsonLine (cliStdout "ok" "[]" "/") = none ∧
    runAgentViaCLI 0 (cliStdout "ok" "[]" "/") "" =
      Except.error ("Agent did not produce AGENT_JSON output.\n" ++ cliStdout "ok" "[]" "/") ∧
    (∀ (r : ExecResult) (s : String), (cliRun (Except.ok r) s).1 = 0) ∧
    (∀ (e s : String), (cliRun (Except.error e) s).1 = 1) :=
  C7_cli_emits_no_sentinel "ok" "[]" "/" (by decide) (by decide) (by decide)

end Agent
